import Mathlib

/-!
Shallow embedding of the csv-test data pipeline (src/index.js).

The script fetches users, posts and comments from an HTTP API with a
retrying HTTP client, validates entities with a loose-truthiness check,
sorts and truncates the post and comment lists, and flattens the
surviving (user, post, comment) triples into records.

Modelling conventions:
- JSON field values are modelled by `JsVal`: a field is absent
  (JavaScript undefined), null, an integer, or a string.  The API serves
  integer ids; fractional numbers, booleans and NaN are not modelled, and
  string ids are treated as non-numeric for the purposes of the `% 2`
  filter (JavaScript would coerce a numeric string).
- Optional `date` fields are modelled as `Option Int` (a millisecond
  timestamp or absent); a zero timestamp is falsy in JavaScript, exactly
  as `dateTruthy` states.  `new Date(b.date) - new Date(a.date)` on
  numeric timestamps equals `b.date - a.date`.
- `Array.prototype.sort` is required by ECMAScript to be stable, and with
  a consistent comparator its result is the unique stable order; we model
  it as the stable insertion sort `List.insertionSort` over the relation
  "comparator result is at most 0".
- The network is an oracle (`Env`): for each query key it yields either
  the decoded body or a terminal error, i.e. the observable outcome of
  `HttpClient.request` after its retries are exhausted.  The retry loop
  itself is modelled separately (`HttpClient.request` below) with an
  oracle giving the outcome of each individual attempt.
- `Logger` calls are modelled as a trace of the warning and error events
  the processor emits (`LogEvent`); informational lines are not tracked.
  Within one `Promise.all` join the real interleaving of failure logs is
  timing-dependent, so the trace fixes the canonical post order and we
  only prove membership facts about it.
- A failed CSV write may leave a partial file; we model the durably
  written rows of a failed or skipped write as the empty list.
-/

/-- A JavaScript field value as it occurs in the JSON entities. -/
inductive JsVal where
  | undef
  | vnull
  | vnum (n : Int)
  | vstr (s : String)
deriving DecidableEq

/-- JavaScript truthiness: undefined, null, the number 0 and the empty
string are falsy, every other modelled value is truthy. -/
def JsVal.truthy : JsVal → Bool
  | .undef => false
  | .vnull => false
  | .vnum n => n != 0
  | .vstr s => s != ""

/-- Numeric reading of an id value, used where the code does arithmetic
on it (sort comparators).  Non-numeric values read as 0. -/
def JsVal.num : JsVal → Int
  | .vnum n => n
  | _ => 0

/-- Truthiness of an optional date field. -/
def dateTruthy : Option Int → Bool
  | none => false
  | some d => d != 0

/-- Numeric reading of an optional date (timestamp). -/
def dateVal (d : Option Int) : Int := d.getD 0

/-- User entity: required fields id and name. -/
structure User where
  id : JsVal
  name : JsVal
deriving DecidableEq

/-- Post entity: required fields id and title; date is optional. -/
structure Post where
  id : JsVal
  title : JsVal
  date : Option Int
deriving DecidableEq

/-- Comment entity: required fields id, body and email; date optional. -/
structure Comment where
  id : JsVal
  body : JsVal
  email : JsVal
  date : Option Int
deriving DecidableEq

/-- One flattened output row, fields copied verbatim from the three
source entities. -/
structure FlatRecord where
  userId : JsVal
  userName : JsVal
  postId : JsVal
  postTitle : JsVal
  commentId : JsVal
  commentBody : JsVal
  commentEmail : JsVal
deriving DecidableEq

/-- The tunable part of CONFIG used by the pipeline stages. -/
structure Config where
  postsPerUser : Nat
  commentsPerPost : Nat
deriving DecidableEq

/-- Oracle for the network and the CSV sink: the outcome of each logical
fetch (after `HttpClient.request` exhausted its retries) and of the
write.  Fetches are keyed by the raw id value interpolated into the
URL. -/
structure Env where
  usersResp : Except Unit (List User)
  postsResp : JsVal → Except Unit (List Post)
  commentsResp : JsVal → Except Unit (List Comment)
  writeOk : Bool

/-- Warning and error events emitted through Logger by the validator and
the processor. -/
inductive LogEvent where
  | invalidUser (id : JsVal)
  | invalidPost (id : JsVal)
  | invalidComment (id : JsVal)
  | commentsFetchFailed (postId : JsVal)
  | userProcessFailed (userId : JsVal)
deriving DecidableEq

/- ---------------------------------------------------------------------
HttpClient.request: bounded retry with exponential backoff.

`fetch k` is the outcome of attempt number k (0-based): either the
decoded body or the error thrown by that attempt.  The trace records the
value returned or error thrown, the number of attempts made, and the
successive backoff delays awaited between attempts.
--------------------------------------------------------------------- -/

/-- Observable trace of one `HttpClient.request` call. -/
structure ReqTrace (E A : Type) where
  result : Except E A
  attempts : Nat
  delays : List Nat

/-- Embedding of `HttpClient.request(url, retries)`: try the attempt; on
failure, if `retries < maxRetries`, wait `retryDelay * 2 ^ retries` and
recurse with `retries + 1`, else rethrow the error of this attempt. -/
def HttpClient.request {E A : Type} (maxRetries retryDelay : Nat)
    (fetch : Nat → Except E A) (retries : Nat) : ReqTrace E A :=
  match fetch retries with
  | .ok a => ⟨.ok a, 1, []⟩
  | .error e =>
    if h : retries < maxRetries then
      let t := HttpClient.request maxRetries retryDelay fetch (retries + 1)
      ⟨t.result, t.attempts + 1, retryDelay * 2 ^ retries :: t.delays⟩
    else
      ⟨.error e, 1, []⟩
termination_by maxRetries - retries
decreasing_by omega

/- ---------------------------------------------------------------------
DataValidator: loose-truthiness required-field checks.
--------------------------------------------------------------------- -/

/-- Embedding of `DataValidator.validateUser`: collect the required
fields that are falsy; valid iff none is. -/
def DataValidator.validateUser (user : User) : Bool :=
  let missing := [user.id, user.name].filter (fun v => !v.truthy)
  if 0 < missing.length then false else true

/-- Embedding of `DataValidator.validatePost`. -/
def DataValidator.validatePost (post : Post) : Bool :=
  let missing := [post.id, post.title].filter (fun v => !v.truthy)
  if 0 < missing.length then false else true

/-- Embedding of `DataValidator.validateComment`. -/
def DataValidator.validateComment (comment : Comment) : Bool :=
  let missing := [comment.id, comment.body, comment.email].filter (fun v => !v.truthy)
  if 0 < missing.length then false else true

/- ---------------------------------------------------------------------
ApiService: fetch, client-side sort, truncate.
--------------------------------------------------------------------- -/

/-- Model of `Array.prototype.sort` with a numeric comparator: the
stable sort placing a before b when the comparator is at most 0. -/
def jsSortCmp {α : Type} (cmp : α → α → Int) (l : List α) : List α :=
  l.insertionSort (fun a b => cmp a b ≤ 0)

/-- The post comparator from `getPostsByUserId`: date difference when
both dates are truthy, id difference otherwise (descending). -/
def ApiService.postCmp (a b : Post) : Int :=
  if dateTruthy a.date && dateTruthy b.date then dateVal b.date - dateVal a.date
  else b.id.num - a.id.num

/-- The comment comparator from `getCommentsByPostId`, same shape. -/
def ApiService.commentCmp (a b : Comment) : Int :=
  if dateTruthy a.date && dateTruthy b.date then dateVal b.date - dateVal a.date
  else b.id.num - a.id.num

/-- Embedding of `ApiService.getPostsByUserId`: fetch the posts for the
user, sort with `postCmp`, keep the first `postsPerUser`. -/
def ApiService.getPostsByUserId (cfg : Config) (env : Env) (userId : JsVal) :
    Except Unit (List Post) :=
  (env.postsResp userId).map fun posts =>
    (jsSortCmp ApiService.postCmp posts).take cfg.postsPerUser

/-- Embedding of `ApiService.getCommentsByPostId`. -/
def ApiService.getCommentsByPostId (cfg : Config) (env : Env) (postId : JsVal) :
    Except Unit (List Comment) :=
  (env.commentsResp postId).map fun comments =>
    (jsSortCmp ApiService.commentCmp comments).take cfg.commentsPerPost

/- ---------------------------------------------------------------------
DataProcessor: orchestration.
--------------------------------------------------------------------- -/

/-- Output of a processing stage: the flattened records pushed, the log
events emitted, and the post ids for which a comment fetch was issued. -/
structure StepOut where
  recs : List FlatRecord
  logs : List LogEvent
  calls : List JsVal
deriving DecidableEq

/-- Componentwise concatenation of stage outputs. -/
def StepOut.append (a b : StepOut) : StepOut :=
  ⟨a.recs ++ b.recs, a.logs ++ b.logs, a.calls ++ b.calls⟩

/-- The even-id filter `users.filter(user => user.id % 2 === 0)`.  A
null id coerces to 0 and passes; undefined gives NaN and fails; string
ids are modelled as failing (see header). -/
def DataProcessor.evenIdFilter (u : User) : Bool :=
  match u.id with
  | .vnum n => n % 2 == 0
  | .vnull => true
  | _ => false

/-- The body of the per-post task inside `Promise.all`: skip the comment
fetch when the post fails validation; otherwise fetch, and on a terminal
error log it and fall back to an empty comment list. -/
def DataProcessor.fetchStage (cfg : Config) (env : Env) (p : Post) :
    (Post × List Comment) × List LogEvent × List JsVal :=
  if DataValidator.validatePost p then
    match ApiService.getCommentsByPostId cfg env p.id with
    | .ok cs => ((p, cs), [], [p.id])
    | .error _ => ((p, []), [.commentsFetchFailed p.id], [p.id])
  else
    ((p, []), [.invalidPost p.id], [])

/-- One flattened record from a validated triple, fields copied
verbatim as in the `allRecords.push` literal. -/
def DataProcessor.mkRecord (u : User) (p : Post) (c : Comment) : FlatRecord :=
  { userId := u.id, userName := u.name, postId := p.id, postTitle := p.title,
    commentId := c.id, commentBody := c.body, commentEmail := c.email }

/-- The `forEach` over one post: each valid comment yields a record,
each invalid one a validation log event. -/
def DataProcessor.commentRecords (u : User) (p : Post) (cs : List Comment) :
    List FlatRecord × List LogEvent :=
  (cs.filterMap fun c =>
      if DataValidator.validateComment c then some (DataProcessor.mkRecord u p c) else none,
   cs.filterMap fun c =>
      if DataValidator.validateComment c then none else some (.invalidComment c.id))

/-- Processing of one user from the even-filtered list: validate, fetch
the posts (a terminal failure is caught, logged and skips the user),
fan out the comment fetches, then flatten the validated comments. -/
def DataProcessor.processUser (cfg : Config) (env : Env) (u : User) : StepOut :=
  if DataValidator.validateUser u then
    match ApiService.getPostsByUserId cfg env u.id with
    | .error _ => ⟨[], [.userProcessFailed u.id], []⟩
    | .ok posts =>
      let pcs := (posts.map (DataProcessor.fetchStage cfg env))
      { recs := pcs.flatMap fun x => (DataProcessor.commentRecords u x.1.1 x.1.2).1
        logs := (pcs.flatMap fun x => x.2.1)
          ++ pcs.flatMap fun x => (DataProcessor.commentRecords u x.1.1 x.1.2).2
        calls := pcs.flatMap fun x => x.2.2 }
  else
    ⟨[], [.invalidUser u.id], []⟩

/-- The main loop of `DataProcessor.process` over the even-id users,
accumulating records, logs and issued comment fetches in order. -/
def DataProcessor.processUsers (cfg : Config) (env : Env) (users : List User) : StepOut :=
  (users.filter DataProcessor.evenIdFilter).foldl
    (fun acc u => acc.append (DataProcessor.processUser cfg env u)) ⟨[], [], []⟩

/-- Observable outcome of one whole run through `main`. -/
structure RunResult where
  exitCode : Nat
  written : List FlatRecord
deriving DecidableEq

/-- Embedding of `main` / `DataProcessor.process`: a users-fetch error
escapes `process` and makes `main` exit 1; otherwise the records are
accumulated and, when nonempty, written — a write error also escapes
`process` and makes `main` exit 1.  An empty record list only warns. -/
def runMain (cfg : Config) (env : Env) : RunResult :=
  match env.usersResp with
  | .error _ => ⟨1, []⟩
  | .ok users =>
    let o := DataProcessor.processUsers cfg env users
    if 0 < o.recs.length then
      if env.writeOk then ⟨0, o.recs⟩ else ⟨1, []⟩
    else ⟨0, []⟩

/- ---------------------------------------------------------------------
Observation functions: the intermediate lists the orchestrator works
through, named so that the theorems can speak about them directly.
--------------------------------------------------------------------- -/

/-- The post list retained for a user: the result of
`getPostsByUserId`, empty when that fetch failed terminally. -/
def userPosts (cfg : Config) (env : Env) (u : User) : List Post :=
  match ApiService.getPostsByUserId cfg env u.id with
  | .ok posts => posts
  | .error _ => []

/-- The comment list retained for a post: the result of
`getCommentsByPostId`, empty when that fetch failed terminally. -/
def postComments (cfg : Config) (env : Env) (p : Post) : List Comment :=
  match ApiService.getCommentsByPostId cfg env p.id with
  | .ok cs => cs
  | .error _ => []

/-- The comment list the per-post task hands to the flattening stage:
empty for an invalid post (no fetch) and on a terminal fetch error. -/
def stageComments (cfg : Config) (env : Env) (p : Post) : List Comment :=
  if DataValidator.validatePost p then postComments cfg env p else []

/-- The log events the per-post task emits. -/
def stageLogs (cfg : Config) (env : Env) (p : Post) : List LogEvent :=
  if DataValidator.validatePost p then
    match ApiService.getCommentsByPostId cfg env p.id with
    | .ok _ => []
    | .error _ => [.commentsFetchFailed p.id]
  else [.invalidPost p.id]

/-- The comment fetches the per-post task issues. -/
def stageCalls (p : Post) : List JsVal :=
  if DataValidator.validatePost p then [p.id] else []

/-- Records contributed by one post of a validated user. -/
def DataProcessor.postRecords (cfg : Config) (env : Env) (u : User) (p : Post) :
    List FlatRecord :=
  (DataProcessor.commentRecords u p (stageComments cfg env p)).1

/-- Users surviving the even-id filter and validation. -/
def survivors (users : List User) : List User :=
  users.filter fun u => DataProcessor.evenIdFilter u && DataValidator.validateUser u

/- ---------------------------------------------------------------------
Spec-modelled sorts.  The spec describes the client-side order as
"descending by date if every item carries a date, else descending by
id", stable; these definitions follow those words, to be compared with
the comparator the code actually uses.
--------------------------------------------------------------------- -/

/-- Modelled from the spec: the stable descending-by-date order of a
post list. -/
def specDateDescSortPosts (l : List Post) : List Post :=
  l.insertionSort fun a b => dateVal b.date ≤ dateVal a.date

/-- Modelled from the spec: the stable descending-by-id order of a
post list. -/
def specIdDescSortPosts (l : List Post) : List Post :=
  l.insertionSort fun a b => b.id.num ≤ a.id.num

/-- Modelled from the spec: the stable descending-by-date order of a
comment list. -/
def specDateDescSortComments (l : List Comment) : List Comment :=
  l.insertionSort fun a b => dateVal b.date ≤ dateVal a.date

/-- Modelled from the spec: the stable descending-by-id order of a
comment list. -/
def specIdDescSortComments (l : List Comment) : List Comment :=
  l.insertionSort fun a b => b.id.num ≤ a.id.num

/- ---------------------------------------------------------------------
Decidable equality on Except, for evaluating concrete runs.
--------------------------------------------------------------------- -/

instance {E A : Type} [DecidableEq E] [DecidableEq A] : DecidableEq (Except E A) := fun x y =>
  match x, y with
  | .ok a, .ok b =>
    if h : a = b then isTrue (congrArg Except.ok h)
    else isFalse fun hc => h (Except.ok.inj hc)
  | .error a, .error b =>
    if h : a = b then isTrue (congrArg Except.error h)
    else isFalse fun hc => h (Except.error.inj hc)
  | .ok _, .error _ => isFalse fun hc => Except.noConfusion hc
  | .error _, .ok _ => isFalse fun hc => Except.noConfusion hc

/- ---------------------------------------------------------------------
Concrete data for witnesses and counterexamples.
--------------------------------------------------------------------- -/

/-- The standard configuration from the CONFIG literal. -/
def cfgStd : Config := ⟨5, 3⟩

def annUser : User := ⟨.vnum 2, .vstr "Ann"⟩

def bobUser : User := ⟨.vnum 4, .vstr "Bob"⟩

def oddUser : User := ⟨.vnum 3, .vstr "Cat"⟩

def post1 : Post := ⟨.vnum 1, .vstr "T1", some 100⟩

def post2 : Post := ⟨.vnum 2, .vstr "T2", some 50⟩

def post3 : Post := ⟨.vnum 3, .vstr "T3", none⟩

/-- Invalid post: empty title. -/
def badPost : Post := ⟨.vnum 9, .vstr "", none⟩

def com1 : Comment := ⟨.vnum 11, .vstr "b1", .vstr "e1", none⟩

def com2 : Comment := ⟨.vnum 12, .vstr "b2", .vstr "e2", none⟩

/-- Invalid comment: empty email. -/
def badCom : Comment := ⟨.vnum 13, .vstr "b3", .vstr "", none⟩

/-- Healthy run: Ann (even, valid) with one valid and one invalid post,
one valid and one invalid comment; Cat has an odd id. -/
def envMain : Env where
  usersResp := .ok [annUser, oddUser]
  postsResp := fun k => if k = JsVal.vnum 2 then .ok [post3, badPost] else .ok []
  commentsResp := fun k => if k = JsVal.vnum 3 then .ok [com1, badCom] else .ok []
  writeOk := true

/-- Mixed-date post list served for Ann. -/
def env4cx : Env where
  usersResp := .ok [annUser]
  postsResp := fun k => if k = JsVal.vnum 2 then .ok [post1, post2, post3] else .ok []
  commentsResp := fun _ => .ok []
  writeOk := true

/-- All-dated post list and undated comment list served for Ann. -/
def env4w : Env where
  usersResp := .ok [annUser]
  postsResp := fun k => if k = JsVal.vnum 2 then .ok [post1, post2] else .ok []
  commentsResp := fun k => if k = JsVal.vnum 1 then .ok [com1, com2] else .ok []
  writeOk := true

/-- The posts fetch for Ann fails terminally; Bob still yields one
record; the CSV write fails. -/
def env3cx : Env where
  usersResp := .ok [annUser, bobUser]
  postsResp := fun k =>
    if k = JsVal.vnum 2 then .error () else
    if k = JsVal.vnum 4 then .ok [post3] else .ok []
  commentsResp := fun k => if k = JsVal.vnum 3 then .ok [com1] else .ok []
  writeOk := false

/-- Same run as `env3cx` but the CSV write succeeds. -/
def env3w : Env where
  usersResp := .ok [annUser, bobUser]
  postsResp := fun k =>
    if k = JsVal.vnum 2 then .error () else
    if k = JsVal.vnum 4 then .ok [post3] else .ok []
  commentsResp := fun k => if k = JsVal.vnum 3 then .ok [com1] else .ok []
  writeOk := true

/-- The initial user listing itself fails terminally. -/
def env5w : Env where
  usersResp := .error ()
  postsResp := fun _ => .ok []
  commentsResp := fun _ => .ok []
  writeOk := true

/-- Shared posts oracle for the isolation pair below. -/
def postsResp7 : JsVal → Except Unit (List Post) :=
  fun k => if k = JsVal.vnum 2 then .ok [post3, post2] else .ok []

/-- Comment fetch for post 3 fails terminally, post 2 succeeds. -/
def env7a : Env where
  usersResp := .ok [annUser]
  postsResp := postsResp7
  commentsResp := fun k =>
    if k = JsVal.vnum 3 then .error () else
    if k = JsVal.vnum 2 then .ok [com1] else .ok []
  writeOk := true

/-- Same run as `env7a` except the comment fetch for post 3 succeeds. -/
def env7b : Env where
  usersResp := .ok [annUser]
  postsResp := postsResp7
  commentsResp := fun k =>
    if k = JsVal.vnum 3 then .ok [com2] else
    if k = JsVal.vnum 2 then .ok [com1] else .ok []
  writeOk := true

/- ---------------------------------------------------------------------
General lemmas about the stable sort model and list plumbing.
--------------------------------------------------------------------- -/

theorem orderedInsert_congr {α : Type} {r s : α → α → Prop}
    [DecidableRel r] [DecidableRel s] (a : α) (l : List α)
    (h : ∀ b ∈ l, (r a b ↔ s a b)) :
    List.orderedInsert r a l = List.orderedInsert s a l := by
  induction l with
  | nil => rfl
  | cons b t ih =>
    simp only [List.orderedInsert]
    by_cases hb : r a b
    · rw [if_pos hb, if_pos ((h b (by simp)).mp hb)]
    · rw [if_neg hb, if_neg (fun hs => hb ((h b (by simp)).mpr hs)),
        ih (fun c hc => h c (by simp [hc]))]

theorem insertionSort_congr {α : Type} {r s : α → α → Prop}
    [DecidableRel r] [DecidableRel s] (l : List α)
    (h : ∀ a ∈ l, ∀ b ∈ l, (r a b ↔ s a b)) :
    List.insertionSort r l = List.insertionSort s l := by
  induction l with
  | nil => rfl
  | cons a t ih =>
    simp only [List.insertionSort]
    rw [ih (fun x hx y hy => h x (by simp [hx]) y (by simp [hy]))]
    exact orderedInsert_congr a _ fun b hb =>
      h a (by simp) b (by simp [(List.mem_insertionSort s).mp hb])

theorem flatMap_congr {α β : Type} {f g : α → List β} (l : List α)
    (h : ∀ a ∈ l, f a = g a) : l.flatMap f = l.flatMap g := by
  induction l with
  | nil => rfl
  | cons a t ih =>
    simp only [List.flatMap_cons, h a (by simp), ih fun x hx => h x (by simp [hx])]

theorem flatMap_length_le {α β : Type} (l : List α) (f : α → List β) (B : Nat)
    (h : ∀ a ∈ l, (f a).length ≤ B) : (l.flatMap f).length ≤ l.length * B := by
  induction l with
  | nil => simp
  | cons a t ih =>
    simp only [List.flatMap_cons, List.length_append, List.length_cons]
    have h1 := h a (by simp)
    have h2 := ih fun x hx => h x (by simp [hx])
    rw [Nat.succ_mul]
    omega

/- ---------------------------------------------------------------------
Structural lemmas about the orchestrator.
--------------------------------------------------------------------- -/

theorem StepOut.foldl_append {α : Type} (f : α → StepOut) (l : List α) (acc : StepOut) :
    l.foldl (fun a u => a.append (f u)) acc =
      ⟨acc.recs ++ l.flatMap fun u => (f u).recs,
       acc.logs ++ l.flatMap fun u => (f u).logs,
       acc.calls ++ l.flatMap fun u => (f u).calls⟩ := by
  induction l generalizing acc with
  | nil => simp
  | cons u t ih =>
    rw [List.foldl_cons, ih]
    simp [StepOut.append, List.flatMap_cons, List.append_assoc]

theorem DataProcessor.processUsers_eq (cfg : Config) (env : Env) (users : List User) :
    DataProcessor.processUsers cfg env users =
      ⟨(users.filter DataProcessor.evenIdFilter).flatMap fun u =>
          (DataProcessor.processUser cfg env u).recs,
       (users.filter DataProcessor.evenIdFilter).flatMap fun u =>
          (DataProcessor.processUser cfg env u).logs,
       (users.filter DataProcessor.evenIdFilter).flatMap fun u =>
          (DataProcessor.processUser cfg env u).calls⟩ := by
  unfold DataProcessor.processUsers
  rw [StepOut.foldl_append]
  rfl

theorem DataProcessor.fetchStage_eq (cfg : Config) (env : Env) (p : Post) :
    DataProcessor.fetchStage cfg env p =
      ((p, stageComments cfg env p), stageLogs cfg env p, stageCalls p) := by
  unfold DataProcessor.fetchStage stageComments stageLogs stageCalls postComments
  by_cases hv : DataValidator.validatePost p = true
  · simp only [hv, if_true]
    cases h : ApiService.getCommentsByPostId cfg env p.id <;> simp [h]
  · simp [hv]

theorem DataProcessor.processUser_invalid (cfg : Config) (env : Env) (u : User)
    (h : DataValidator.validateUser u = false) :
    DataProcessor.processUser cfg env u = ⟨[], [.invalidUser u.id], []⟩ := by
  unfold DataProcessor.processUser
  simp [h]

theorem DataProcessor.processUser_postsFail (cfg : Config) (env : Env) (u : User)
    (hval : DataValidator.validateUser u = true)
    (herr : env.postsResp u.id = .error ()) :
    DataProcessor.processUser cfg env u = ⟨[], [.userProcessFailed u.id], []⟩ := by
  have hg : ApiService.getPostsByUserId cfg env u.id = .error () := by
    unfold ApiService.getPostsByUserId
    rw [herr]
    rfl
  unfold DataProcessor.processUser
  simp [hval, hg]

theorem DataProcessor.processUser_ok (cfg : Config) (env : Env) (u : User) (posts : List Post)
    (hval : DataValidator.validateUser u = true)
    (hok : ApiService.getPostsByUserId cfg env u.id = .ok posts) :
    DataProcessor.processUser cfg env u =
      ⟨posts.flatMap (DataProcessor.postRecords cfg env u),
       (posts.flatMap (stageLogs cfg env)) ++
         posts.flatMap fun p => (DataProcessor.commentRecords u p (stageComments cfg env p)).2,
       posts.flatMap stageCalls⟩ := by
  unfold DataProcessor.processUser
  simp only [hval, if_true, hok]
  simp only [DataProcessor.fetchStage_eq, List.flatMap_map, DataProcessor.postRecords]
  rfl

theorem DataProcessor.processUser_recs (cfg : Config) (env : Env) (u : User)
    (hval : DataValidator.validateUser u = true) :
    (DataProcessor.processUser cfg env u).recs =
      (userPosts cfg env u).flatMap (DataProcessor.postRecords cfg env u) := by
  unfold userPosts
  cases h : ApiService.getPostsByUserId cfg env u.id with
  | ok posts => rw [DataProcessor.processUser_ok cfg env u posts hval h]
  | error e =>
    unfold DataProcessor.processUser
    simp [hval, h]

theorem recs_filter_aux (cfg : Config) (env : Env) (l : List User) :
    ((l.filter DataProcessor.evenIdFilter).flatMap fun u =>
        (DataProcessor.processUser cfg env u).recs) =
      (l.filter fun u =>
          DataProcessor.evenIdFilter u && DataValidator.validateUser u).flatMap fun u =>
        (userPosts cfg env u).flatMap (DataProcessor.postRecords cfg env u) := by
  induction l with
  | nil => rfl
  | cons u t ih =>
    by_cases he : DataProcessor.evenIdFilter u = true
    · by_cases hv : DataValidator.validateUser u = true
      · simp only [List.filter_cons, he, hv, Bool.and_self, if_true, List.flatMap_cons, ih,
          DataProcessor.processUser_recs cfg env u hv]
      · have hv2 : DataValidator.validateUser u = false := by
          cases h2 : DataValidator.validateUser u
          · rfl
          · exact absurd h2 hv
        have hrecs : (DataProcessor.processUser cfg env u).recs = [] := by
          rw [DataProcessor.processUser_invalid cfg env u hv2]
        simp [List.filter_cons, he, hv2, hrecs, ih]
    · have he2 : DataProcessor.evenIdFilter u = false := by
        cases h2 : DataProcessor.evenIdFilter u
        · rfl
        · exact absurd h2 he
      simp [List.filter_cons, he2, ih]

theorem recs_survivors (cfg : Config) (env : Env) (users : List User) :
    (DataProcessor.processUsers cfg env users).recs =
      (survivors users).flatMap fun u =>
        (userPosts cfg env u).flatMap (DataProcessor.postRecords cfg env u) := by
  rw [DataProcessor.processUsers_eq]
  exact recs_filter_aux cfg env users

theorem DataProcessor.postRecords_eq (cfg : Config) (env : Env) (u : User) (p : Post) :
    DataProcessor.postRecords cfg env u p =
      if DataValidator.validatePost p = true then
        (postComments cfg env p).filterMap fun c =>
          if DataValidator.validateComment c = true then some (DataProcessor.mkRecord u p c)
          else none
      else [] := by
  unfold DataProcessor.postRecords DataProcessor.commentRecords stageComments
  by_cases hv : DataValidator.validatePost p = true <;> simp [hv]

theorem getPostsByUserId_ok_shape (cfg : Config) (env : Env) (k : JsVal) (posts : List Post)
    (hok : ApiService.getPostsByUserId cfg env k = .ok posts) :
    ∃ raw, env.postsResp k = .ok raw ∧
      posts = (jsSortCmp ApiService.postCmp raw).take cfg.postsPerUser := by
  unfold ApiService.getPostsByUserId at hok
  cases h : env.postsResp k with
  | ok raw =>
    rw [h] at hok
    exact ⟨raw, rfl, (Except.ok.inj hok).symm⟩
  | error e =>
    rw [h] at hok
    exact absurd hok (by simp [Except.map])

theorem getCommentsByPostId_ok_shape (cfg : Config) (env : Env) (k : JsVal)
    (cs : List Comment)
    (hok : ApiService.getCommentsByPostId cfg env k = .ok cs) :
    ∃ raw, env.commentsResp k = .ok raw ∧
      cs = (jsSortCmp ApiService.commentCmp raw).take cfg.commentsPerPost := by
  unfold ApiService.getCommentsByPostId at hok
  cases h : env.commentsResp k with
  | ok raw =>
    rw [h] at hok
    exact ⟨raw, rfl, (Except.ok.inj hok).symm⟩
  | error e =>
    rw [h] at hok
    exact absurd hok (by simp [Except.map])

theorem stageComments_length_le (cfg : Config) (env : Env) (p : Post) :
    (stageComments cfg env p).length ≤ cfg.commentsPerPost := by
  unfold stageComments postComments
  by_cases hv : DataValidator.validatePost p = true
  · simp only [hv, if_true]
    cases h : ApiService.getCommentsByPostId cfg env p.id with
    | ok cs =>
      obtain ⟨raw, -, hshape⟩ := getCommentsByPostId_ok_shape cfg env p.id cs h
      rw [hshape]
      exact List.length_take_le _ _
    | error e => simp
  · simp [hv]

theorem postRecords_length_le (cfg : Config) (env : Env) (u : User) (p : Post) :
    (DataProcessor.postRecords cfg env u p).length ≤ cfg.commentsPerPost := by
  unfold DataProcessor.postRecords DataProcessor.commentRecords
  exact le_trans (List.length_filterMap_le _ _) (stageComments_length_le cfg env p)

theorem validateUser_true_iff (u : User) :
    DataValidator.validateUser u = true ↔ (u.id.truthy = true ∧ u.name.truthy = true) := by
  unfold DataValidator.validateUser
  cases h1 : u.id.truthy <;> cases h2 : u.name.truthy <;> simp [h1, h2]

theorem flatMap_stageCalls (posts : List Post) :
    posts.flatMap stageCalls = (posts.filter DataValidator.validatePost).map Post.id := by
  induction posts with
  | nil => rfl
  | cons p t ih =>
    by_cases hv : DataValidator.validatePost p = true <;>
      simp [stageCalls, List.filter_cons, hv, ih]

theorem mem_recs_decomp (cfg : Config) (env : Env) (users : List User) (r : FlatRecord)
    (hr : r ∈ (DataProcessor.processUsers cfg env users).recs) :
    ∃ u p c, u ∈ users ∧
      DataProcessor.evenIdFilter u = true ∧
      DataValidator.validateUser u = true ∧
      p ∈ userPosts cfg env u ∧
      DataValidator.validatePost p = true ∧
      c ∈ postComments cfg env p ∧
      DataValidator.validateComment c = true ∧
      r = DataProcessor.mkRecord u p c := by
  rw [recs_survivors] at hr
  simp only [List.mem_flatMap] at hr
  obtain ⟨u, hu, p, hp, hrp⟩ := hr
  unfold survivors at hu
  rw [List.mem_filter] at hu
  obtain ⟨humem, hfv⟩ := hu
  rw [Bool.and_eq_true] at hfv
  rw [DataProcessor.postRecords_eq] at hrp
  by_cases hvp : DataValidator.validatePost p = true
  · rw [if_pos hvp] at hrp
    rw [List.mem_filterMap] at hrp
    obtain ⟨c, hc, hcr⟩ := hrp
    by_cases hvc : DataValidator.validateComment c = true
    · rw [if_pos hvc] at hcr
      exact ⟨u, p, c, humem, hfv.1, hfv.2, hp, hvp, hc, hvc, (Option.some.inj hcr).symm⟩
    · rw [if_neg hvc] at hcr
      cases hcr
  · rw [if_neg hvp] at hrp
    simp at hrp

theorem getComments_agree (cfg : Config) (env env2 : Env) (k : JsVal)
    (h : env2.commentsResp k = env.commentsResp k) :
    ApiService.getCommentsByPostId cfg env2 k = ApiService.getCommentsByPostId cfg env k := by
  unfold ApiService.getCommentsByPostId
  rw [h]

theorem stageComments_agree (cfg : Config) (env env2 : Env) (p : Post)
    (h : env2.commentsResp p.id = env.commentsResp p.id) :
    stageComments cfg env2 p = stageComments cfg env p := by
  unfold stageComments postComments
  rw [getComments_agree cfg env env2 p.id h]

theorem stageLogs_agree (cfg : Config) (env env2 : Env) (p : Post)
    (h : env2.commentsResp p.id = env.commentsResp p.id) :
    stageLogs cfg env2 p = stageLogs cfg env p := by
  unfold stageLogs
  rw [getComments_agree cfg env env2 p.id h]

theorem HttpClient.request_fail_aux {E A : Type} (m d : Nat) (err : Nat → E)
    (fetch : Nat → Except E A) (hf : ∀ k, fetch k = .error (err k)) :
    ∀ (n r : Nat), m - r = n → r ≤ m →
      HttpClient.request m d fetch r =
        ⟨.error (err m), n + 1, (List.range' r n).map fun i => d * 2 ^ i⟩ := by
  intro n
  induction n with
  | zero =>
    intro r h1 h2
    have hrm : r = m := by omega
    subst hrm
    rw [HttpClient.request]
    rw [hf r]
    simp
  | succ n ih =>
    intro r h1 h2
    have hlt : r < m := by omega
    rw [HttpClient.request]
    rw [hf r]
    simp only [dif_pos hlt, ih (r + 1) (by omega) (by omega), List.range'_succ]
    simp [List.range'_succ]

/- ---------------------------------------------------------------------
Claim theorems.
--------------------------------------------------------------------- -/

/-- C1: with maxRetries = n, a permanently failing fetch makes
HttpClient.request perform exactly n + 1 attempts, with waits of
retryDelay * 2 ^ 0, ..., retryDelay * 2 ^ (n - 1) between successive
attempts, and the error raised at the end is the failure of the last
attempt. -/
theorem claim_C1_retry_exhaustion {E A : Type} (n d : Nat) (err : Nat → E)
    (fetch : Nat → Except E A) (hf : ∀ k, fetch k = .error (err k)) :
    (HttpClient.request n d fetch 0).attempts = n + 1 ∧
    (HttpClient.request n d fetch 0).delays = (List.range n).map (fun i => d * 2 ^ i) ∧
    (HttpClient.request n d fetch 0).result = .error (err n) := by
  have h := HttpClient.request_fail_aux n d err fetch hf n 0 (by omega) (by omega)
  rw [h, List.range_eq_range']
  exact ⟨rfl, rfl, rfl⟩

/-- Witness for C1 at maxRetries = 2, retryDelay = 1000 and an oracle
failing every attempt with its index. -/
theorem claim_C1_retry_exhaustion_witness :
    (HttpClient.request (E := Nat) (A := Unit) 2 1000 (fun k => .error k) 0).attempts = 3 ∧
    (HttpClient.request (E := Nat) (A := Unit) 2 1000 (fun k => .error k) 0).delays
      = [1000, 2000] ∧
    (HttpClient.request (E := Nat) (A := Unit) 2 1000 (fun k => .error k) 0).result
      = .error 2 := by
  obtain ⟨h1, h2, h3⟩ :=
    claim_C1_retry_exhaustion 2 1000 (fun k => k) (fun k => Except.error k) (fun k => rfl)
  exact ⟨h1, by rw [h2]; rfl, h3⟩

/-- C2: every output record comes from a (user, post, comment) triple in
the fetched data in which user, post and comment each passed validation,
and all seven fields are copied verbatim from those source entities. -/
theorem claim_C2_round_trip (cfg : Config) (env : Env) (users : List User) (r : FlatRecord)
    (hr : r ∈ (DataProcessor.processUsers cfg env users).recs) :
    ∃ u p c, u ∈ users ∧
      DataProcessor.evenIdFilter u = true ∧
      DataValidator.validateUser u = true ∧
      p ∈ userPosts cfg env u ∧
      DataValidator.validatePost p = true ∧
      c ∈ postComments cfg env p ∧
      DataValidator.validateComment c = true ∧
      r = DataProcessor.mkRecord u p c ∧
      r.userId = u.id ∧ r.userName = u.name ∧
      r.postId = p.id ∧ r.postTitle = p.title ∧
      r.commentId = c.id ∧ r.commentBody = c.body ∧ r.commentEmail = c.email := by
  obtain ⟨u, p, c, h1, h2, h3, h4, h5, h6, h7, h8⟩ := mem_recs_decomp cfg env users r hr
  subst h8
  exact ⟨u, p, c, h1, h2, h3, h4, h5, h6, h7, rfl, rfl, rfl, rfl, rfl, rfl, rfl, rfl⟩

/-- Witness for C2 on a concrete healthy run. -/
theorem claim_C2_round_trip_witness :
    ∃ u p c, u ∈ [annUser, oddUser] ∧
      DataProcessor.evenIdFilter u = true ∧
      DataValidator.validateUser u = true ∧
      p ∈ userPosts cfgStd envMain u ∧
      DataValidator.validatePost p = true ∧
      c ∈ postComments cfgStd envMain p ∧
      DataValidator.validateComment c = true ∧
      DataProcessor.mkRecord annUser post3 com1 = DataProcessor.mkRecord u p c ∧
      (DataProcessor.mkRecord annUser post3 com1).userId = u.id ∧
      (DataProcessor.mkRecord annUser post3 com1).userName = u.name ∧
      (DataProcessor.mkRecord annUser post3 com1).postId = p.id ∧
      (DataProcessor.mkRecord annUser post3 com1).postTitle = p.title ∧
      (DataProcessor.mkRecord annUser post3 com1).commentId = c.id ∧
      (DataProcessor.mkRecord annUser post3 com1).commentBody = c.body ∧
      (DataProcessor.mkRecord annUser post3 com1).commentEmail = c.email :=
  claim_C2_round_trip cfgStd envMain [annUser, oddUser]
    (DataProcessor.mkRecord annUser post3 com1) (by decide)

/-- C3 (amended): a terminal posts-fetch failure for one surviving user
skips exactly that user: the failure is logged, the records are those of
the run without that user and, provided the CSV write succeeds, the run
exits 0. -/
theorem claim_C3_user_fetch_isolation (cfg : Config) (env : Env) (l1 l2 : List User)
    (u : User)
    (heven : DataProcessor.evenIdFilter u = true)
    (hval : DataValidator.validateUser u = true)
    (hfail : env.postsResp u.id = .error ()) :
    DataProcessor.processUser cfg env u = ⟨[], [.userProcessFailed u.id], []⟩ ∧
    (DataProcessor.processUsers cfg env (l1 ++ u :: l2)).recs =
      (DataProcessor.processUsers cfg env (l1 ++ l2)).recs ∧
    LogEvent.userProcessFailed u.id ∈
      (DataProcessor.processUsers cfg env (l1 ++ u :: l2)).logs ∧
    (env.usersResp = .ok (l1 ++ u :: l2) → env.writeOk = true →
      (runMain cfg env).exitCode = 0) := by
  have hstep := DataProcessor.processUser_postsFail cfg env u hval hfail
  refine ⟨hstep, ?_, ?_, ?_⟩
  · rw [DataProcessor.processUsers_eq, DataProcessor.processUsers_eq]
    simp [List.filter_append, List.filter_cons, heven, List.flatMap_append,
      List.flatMap_cons, hstep]
  · rw [DataProcessor.processUsers_eq]
    simp only [List.mem_flatMap]
    refine ⟨u, ?_, by simp [hstep]⟩
    rw [List.mem_filter]
    exact ⟨by simp, heven⟩
  · intro hu hw
    by_cases h0 : 0 < (DataProcessor.processUsers cfg env (l1 ++ u :: l2)).recs.length
    · simp [runMain, hu, h0, hw]
    · simp [runMain, hu, h0]

/-- Witness for C3: with the CSV write succeeding, the run with the
failing user exits 0 and produces exactly the records of the run
without that user. -/
theorem claim_C3_user_fetch_isolation_witness :
    (runMain cfgStd env3w).exitCode = 0 ∧
    (DataProcessor.processUsers cfgStd env3w [annUser, bobUser]).recs =
      (DataProcessor.processUsers cfgStd env3w [bobUser]).recs := by
  have h := claim_C3_user_fetch_isolation cfgStd env3w [] [bobUser] annUser rfl rfl rfl
  exact ⟨h.2.2.2 rfl rfl, h.2.1⟩

/-- Counterexample for C3 as stated: in a run where one surviving user
has a terminal posts-fetch failure the exit status can still be 1,
because a failing CSV write escapes to main. -/
theorem claim_C3_counterexample :
    DataProcessor.evenIdFilter annUser = true ∧
    DataValidator.validateUser annUser = true ∧
    env3cx.postsResp annUser.id = .error () ∧
    env3cx.usersResp = .ok [annUser, bobUser] ∧
    (runMain cfgStd env3cx).exitCode = 1 :=
  ⟨rfl, rfl, rfl, rfl, rfl⟩

/-- C4 (amended): the fetched list is stably sorted with the pairwise
comparator (date-descending when both items carry truthy dates, else
id-descending) and truncated; when every item carries a date this is the
stable date-descending sort, and when no item does it is the stable
id-descending sort; analogously for comments. -/
theorem claim_C4_sorting (cfg : Config) (env : Env) (ukey pkey : JsVal)
    (posts : List Post) (comments : List Comment)
    (hp : env.postsResp ukey = .ok posts)
    (hc : env.commentsResp pkey = .ok comments) :
    ApiService.getPostsByUserId cfg env ukey =
      .ok ((jsSortCmp ApiService.postCmp posts).take cfg.postsPerUser) ∧
    ((∀ q ∈ posts, dateTruthy q.date = true) →
      ApiService.getPostsByUserId cfg env ukey =
        .ok ((specDateDescSortPosts posts).take cfg.postsPerUser)) ∧
    ((∀ q ∈ posts, dateTruthy q.date = false) →
      ApiService.getPostsByUserId cfg env ukey =
        .ok ((specIdDescSortPosts posts).take cfg.postsPerUser)) ∧
    ApiService.getCommentsByPostId cfg env pkey =
      .ok ((jsSortCmp ApiService.commentCmp comments).take cfg.commentsPerPost) ∧
    ((∀ q ∈ comments, dateTruthy q.date = true) →
      ApiService.getCommentsByPostId cfg env pkey =
        .ok ((specDateDescSortComments comments).take cfg.commentsPerPost)) ∧
    ((∀ q ∈ comments, dateTruthy q.date = false) →
      ApiService.getCommentsByPostId cfg env pkey =
        .ok ((specIdDescSortComments comments).take cfg.commentsPerPost)) := by
  have hbaseP : ApiService.getPostsByUserId cfg env ukey =
      .ok ((jsSortCmp ApiService.postCmp posts).take cfg.postsPerUser) := by
    unfold ApiService.getPostsByUserId
    rw [hp]
    rfl
  have hbaseC : ApiService.getCommentsByPostId cfg env pkey =
      .ok ((jsSortCmp ApiService.commentCmp comments).take cfg.commentsPerPost) := by
    unfold ApiService.getCommentsByPostId
    rw [hc]
    rfl
  refine ⟨hbaseP, fun hall => ?_, fun hnone => ?_, hbaseC, fun hall => ?_, fun hnone => ?_⟩
  · rw [hbaseP]
    have hs : jsSortCmp ApiService.postCmp posts = specDateDescSortPosts posts := by
      unfold jsSortCmp specDateDescSortPosts
      refine insertionSort_congr posts fun a ha b hb => ?_
      unfold ApiService.postCmp
      rw [hall a ha, hall b hb]
      simp [sub_nonpos]
    rw [hs]
  · rw [hbaseP]
    have hs : jsSortCmp ApiService.postCmp posts = specIdDescSortPosts posts := by
      unfold jsSortCmp specIdDescSortPosts
      refine insertionSort_congr posts fun a ha b hb => ?_
      unfold ApiService.postCmp
      rw [hnone a ha]
      simp [sub_nonpos]
    rw [hs]
  · rw [hbaseC]
    have hs : jsSortCmp ApiService.commentCmp comments = specDateDescSortComments comments := by
      unfold jsSortCmp specDateDescSortComments
      refine insertionSort_congr comments fun a ha b hb => ?_
      unfold ApiService.commentCmp
      rw [hall a ha, hall b hb]
      simp [sub_nonpos]
    rw [hs]
  · rw [hbaseC]
    have hs : jsSortCmp ApiService.commentCmp comments = specIdDescSortComments comments := by
      unfold jsSortCmp specIdDescSortComments
      refine insertionSort_congr comments fun a ha b hb => ?_
      unfold ApiService.commentCmp
      rw [hnone a ha]
      simp [sub_nonpos]
    rw [hs]

/-- Witness for C4 on an all-dated post list and an all-undated comment
list. -/
theorem claim_C4_sorting_witness :
    ApiService.getPostsByUserId cfgStd env4w (JsVal.vnum 2) =
      .ok ((specDateDescSortPosts [post1, post2]).take cfgStd.postsPerUser) ∧
    ApiService.getCommentsByPostId cfgStd env4w (JsVal.vnum 1) =
      .ok ((specIdDescSortComments [com1, com2]).take cfgStd.commentsPerPost) := by
  have h := claim_C4_sorting cfgStd env4w (JsVal.vnum 2) (JsVal.vnum 1)
    [post1, post2] [com1, com2] rfl rfl
  exact ⟨h.2.1 (by decide), h.2.2.2.2.2 (by decide)⟩

/-- Counterexample for C4 as stated: on a list where some but not all
posts carry a date, the code returns an order that is not the
id-descending sort. -/
theorem claim_C4_counterexample :
    dateTruthy post3.date = false ∧
    dateTruthy post1.date = true ∧
    ApiService.getPostsByUserId cfgStd env4cx (JsVal.vnum 2) =
      .ok [post3, post1, post2] ∧
    specIdDescSortPosts [post1, post2, post3] = [post3, post2, post1] ∧
    ([post3, post1, post2] : List Post) ≠ [post3, post2, post1] := by
  exact ⟨rfl, rfl, rfl, by decide, by decide⟩

/-- C5 (amended): the run exits nonzero exactly when the initial user
fetch fails or a nonempty record set fails to write; a user-fetch
failure writes nothing; fetch failures below the top level never make
the exit nonzero when the write succeeds. -/
theorem claim_C5_exit_status (cfg : Config) (env : Env) :
    ((runMain cfg env).exitCode ≠ 0 ↔
      (env.usersResp = .error () ∨
        ∃ users, env.usersResp = .ok users ∧
          0 < (DataProcessor.processUsers cfg env users).recs.length ∧
          env.writeOk = false)) ∧
    (env.usersResp = .error () → runMain cfg env = ⟨1, []⟩) ∧
    (∀ users, env.usersResp = .ok users → env.writeOk = true →
      (runMain cfg env).exitCode = 0) := by
  refine ⟨?_, ?_, ?_⟩
  · cases hu : env.usersResp with
    | error e =>
      cases e
      simp [runMain, hu]
    | ok users =>
      by_cases h0 : 0 < (DataProcessor.processUsers cfg env users).recs.length
      · cases hw : env.writeOk
        · simp [runMain, hu, h0, hw]
        · simp [runMain, hu, h0, hw]
      · simp [runMain, hu, h0]
  · intro hu
    simp [runMain, hu]
  · intro users hu hw
    by_cases h0 : 0 < (DataProcessor.processUsers cfg env users).recs.length
    · simp [runMain, hu, h0, hw]
    · simp [runMain, hu, h0]

/-- Witness for C5: a terminal user-listing failure aborts with exit 1
and zero rows written. -/
theorem claim_C5_exit_status_witness :
    runMain cfgStd env5w = ⟨1, []⟩ :=
  (claim_C5_exit_status cfgStd env5w).2.1 rfl

/-- Counterexample for C5 as stated: the user listing succeeds, yet the
run exits nonzero because the CSV write fails. -/
theorem claim_C5_counterexample :
    env3cx.usersResp = .ok [annUser, bobUser] ∧
    (runMain cfgStd env3cx).exitCode = 1 :=
  ⟨rfl, rfl⟩

/-- C6: each validator returns false exactly when one of its required
fields is falsy (absent, null, zero or empty), and in particular a user
whose id is the number 0 is classified invalid. -/
theorem claim_C6_loose_truthiness :
    (∀ u : User, DataValidator.validateUser u = false ↔
      (u.id.truthy = false ∨ u.name.truthy = false)) ∧
    (∀ p : Post, DataValidator.validatePost p = false ↔
      (p.id.truthy = false ∨ p.title.truthy = false)) ∧
    (∀ c : Comment, DataValidator.validateComment c = false ↔
      (c.id.truthy = false ∨ c.body.truthy = false ∨ c.email.truthy = false)) ∧
    DataValidator.validateUser ⟨.vnum 0, .vstr "Ann"⟩ = false := by
  refine ⟨fun u => ?_, fun p => ?_, fun c => ?_, by decide⟩
  · unfold DataValidator.validateUser
    cases h1 : u.id.truthy <;> cases h2 : u.name.truthy <;> simp [h1, h2]
  · unfold DataValidator.validatePost
    cases h1 : p.id.truthy <;> cases h2 : p.title.truthy <;> simp [h1, h2]
  · unfold DataValidator.validateComment
    cases h1 : c.id.truthy <;> cases h2 : c.body.truthy <;> cases h3 : c.email.truthy <;>
      simp [h1, h2, h3]

/-- C7: a terminal comment-fetch failure for one post leaves that post
with zero records, while sibling posts, their comment fetches, and
every user whose posts avoid that id are untouched. -/
theorem claim_C7_comment_isolation (cfg : Config) (env env2 : Env) (u : User)
    (posts : List Post) (p : Post)
    (hok : ApiService.getPostsByUserId cfg env u.id = .ok posts)
    (hfail : env.commentsResp p.id = .error ())
    (hagree : ∀ k, k ≠ p.id → env2.commentsResp k = env.commentsResp k)
    (hposts : env2.postsResp = env.postsResp) :
    stageComments cfg env p = [] ∧
    DataProcessor.postRecords cfg env u p = [] ∧
    (DataValidator.validateUser u = true →
      (DataProcessor.processUser cfg env u).recs =
        posts.flatMap (DataProcessor.postRecords cfg env u) ∧
      (DataProcessor.processUser cfg env u).calls =
        (posts.filter DataValidator.validatePost).map Post.id) ∧
    (∀ q : Post, q.id ≠ p.id →
      DataProcessor.postRecords cfg env u q = DataProcessor.postRecords cfg env2 u q) ∧
    (∀ v : User, ∀ posts2 : List Post,
      ApiService.getPostsByUserId cfg env v.id = .ok posts2 →
      (∀ q ∈ posts2, q.id ≠ p.id) →
      DataProcessor.processUser cfg env v = DataProcessor.processUser cfg env2 v) := by
  have hgc : ApiService.getCommentsByPostId cfg env p.id = .error () := by
    unfold ApiService.getCommentsByPostId
    rw [hfail]
    rfl
  have hsc : stageComments cfg env p = [] := by
    unfold stageComments postComments
    rw [hgc]
    by_cases hv : DataValidator.validatePost p = true <;> simp [hv]
  refine ⟨hsc, ?_, fun hval => ?_, fun q hq => ?_, fun v posts2 hv2 hq2 => ?_⟩
  · unfold DataProcessor.postRecords DataProcessor.commentRecords
    rw [hsc]
    rfl
  · have hPU := DataProcessor.processUser_ok cfg env u posts hval hok
    rw [hPU]
    exact ⟨rfl, flatMap_stageCalls posts⟩
  · unfold DataProcessor.postRecords DataProcessor.commentRecords
    rw [stageComments_agree cfg env env2 q (hagree q.id hq)]
  · have hv2b : ApiService.getPostsByUserId cfg env2 v.id = .ok posts2 := by
      unfold ApiService.getPostsByUserId
      rw [hposts]
      unfold ApiService.getPostsByUserId at hv2
      exact hv2
    by_cases hvv : DataValidator.validateUser v = true
    · rw [DataProcessor.processUser_ok cfg env v posts2 hvv hv2,
        DataProcessor.processUser_ok cfg env2 v posts2 hvv hv2b]
      have hcongr : ∀ q ∈ posts2,
          stageComments cfg env q = stageComments cfg env2 q := fun q hq =>
        (stageComments_agree cfg env env2 q (hagree q.id (hq2 q hq))).symm
      have hlogs : ∀ q ∈ posts2,
          stageLogs cfg env q = stageLogs cfg env2 q := fun q hq =>
        (stageLogs_agree cfg env env2 q (hagree q.id (hq2 q hq))).symm
      have h1 : posts2.flatMap (DataProcessor.postRecords cfg env v) =
          posts2.flatMap (DataProcessor.postRecords cfg env2 v) := by
        refine flatMap_congr posts2 fun q hq => ?_
        unfold DataProcessor.postRecords DataProcessor.commentRecords
        rw [hcongr q hq]
      have h2 : posts2.flatMap (stageLogs cfg env) =
          posts2.flatMap (stageLogs cfg env2) :=
        flatMap_congr posts2 fun q hq => hlogs q hq
      have h3 : (posts2.flatMap fun q =>
            (DataProcessor.commentRecords v q (stageComments cfg env q)).2) =
          posts2.flatMap fun q =>
            (DataProcessor.commentRecords v q (stageComments cfg env2 q)).2 := by
        refine flatMap_congr posts2 fun q hq => ?_
        rw [hcongr q hq]
      rw [h1, h2, h3]
    · have hvf : DataValidator.validateUser v = false := by
        cases hx : DataValidator.validateUser v
        · rfl
        · exact absurd hx hvv
      rw [DataProcessor.processUser_invalid cfg env v hvf,
        DataProcessor.processUser_invalid cfg env2 v hvf]

/-- Witness for C7: the comment fetch for post 3 fails, post 2 still
yields its record, and changing only the post-3 comments leaves post 2
untouched. -/
theorem claim_C7_comment_isolation_witness :
    stageComments cfgStd env7a post3 = [] ∧
    DataProcessor.postRecords cfgStd env7a annUser post3 = [] ∧
    DataProcessor.postRecords cfgStd env7a annUser post2 =
      DataProcessor.postRecords cfgStd env7b annUser post2 ∧
    (DataProcessor.processUser cfgStd env7a annUser).recs =
      [post3, post2].flatMap (DataProcessor.postRecords cfgStd env7a annUser) := by
  have h := claim_C7_comment_isolation cfgStd env7a env7b annUser [post3, post2] post3
    rfl rfl (by intro k hk; simp only [post3] at hk; simp [env7a, env7b, hk]) rfl
  exact ⟨h.1, h.2.1, h.2.2.2.1 post2 (by decide), (h.2.2.1 rfl).1⟩

/-- C8: the output sequence is ordered by user processing order, then by
the post order returned by getPostsByUserId, then by the comment order
returned by getCommentsByPostId. -/
theorem claim_C8_output_order (cfg : Config) (env : Env) (users : List User) :
    (DataProcessor.processUsers cfg env users).recs =
      (survivors users).flatMap fun u =>
        (userPosts cfg env u).flatMap fun p =>
          if DataValidator.validatePost p = true then
            (postComments cfg env p).filterMap fun c =>
              if DataValidator.validateComment c = true then
                some (DataProcessor.mkRecord u p c)
              else none
          else [] := by
  rw [recs_survivors]
  exact flatMap_congr _ fun u hu =>
    flatMap_congr _ fun p hp => DataProcessor.postRecords_eq cfg env u p

/-- C9: a user with an odd id contributes nothing to the output, and
every output record carries an even numeric userId. -/
theorem claim_C9_even_user_filter (cfg : Config) (env : Env) (users l1 l2 : List User)
    (u : User) (k : Int) (r : FlatRecord)
    (hodd : u.id = JsVal.vnum k) (hk : k % 2 ≠ 0)
    (hr : r ∈ (DataProcessor.processUsers cfg env users).recs) :
    DataProcessor.processUsers cfg env (l1 ++ u :: l2) =
      DataProcessor.processUsers cfg env (l1 ++ l2) ∧
    ∃ n : Int, r.userId = JsVal.vnum n ∧ n % 2 = 0 := by
  constructor
  · have hfe : DataProcessor.evenIdFilter u = false := by
      unfold DataProcessor.evenIdFilter
      rw [hodd]
      simpa using hk
    have hfilter : (l1 ++ u :: l2).filter DataProcessor.evenIdFilter =
        (l1 ++ l2).filter DataProcessor.evenIdFilter := by
      simp [List.filter_append, List.filter_cons, hfe]
    unfold DataProcessor.processUsers
    rw [hfilter]
  · obtain ⟨u0, p, c, -, heven, hval, -, -, -, -, hrec⟩ :=
      mem_recs_decomp cfg env users r hr
    have hid : u0.id.truthy = true := ((validateUser_true_iff u0).mp hval).1
    have huserId : r.userId = u0.id := by rw [hrec]; rfl
    unfold DataProcessor.evenIdFilter at heven
    cases hcase : u0.id with
    | undef => rw [hcase] at heven; cases heven
    | vnull => rw [hcase] at hid; cases hid
    | vnum n =>
      rw [hcase] at heven
      refine ⟨n, by rw [huserId, hcase], ?_⟩
      simpa using heven
    | vstr s => rw [hcase] at heven; cases heven

/-- Witness for C9: the odd-id user contributes nothing and the one
output record carries the even userId 2. -/
theorem claim_C9_even_user_filter_witness :
    DataProcessor.processUsers cfgStd envMain [annUser, oddUser] =
      DataProcessor.processUsers cfgStd envMain [annUser] ∧
    ∃ n : Int, (DataProcessor.mkRecord annUser post3 com1).userId = JsVal.vnum n ∧
      n % 2 = 0 :=
  claim_C9_even_user_filter cfgStd envMain [annUser, oddUser] [annUser] [] oddUser 3
    (DataProcessor.mkRecord annUser post3 com1) rfl (by decide) (by decide)

/-- C10: an invalid post triggers no comment fetch, contributes no
records, leaves sibling posts independent, and the per-user record
count is bounded by postsPerUser * commentsPerPost. -/
theorem claim_C10_invalid_post (cfg : Config) (env : Env) (u : User)
    (posts : List Post) (p : Post)
    (hval : DataValidator.validateUser u = true)
    (hok : ApiService.getPostsByUserId cfg env u.id = .ok posts)
    (hp : p ∈ posts)
    (hinv : DataValidator.validatePost p = false)
    (hdist : ∀ q ∈ posts, DataValidator.validatePost q = true → q.id ≠ p.id) :
    (DataProcessor.processUser cfg env u).calls =
      (posts.filter DataValidator.validatePost).map Post.id ∧
    p.id ∉ (DataProcessor.processUser cfg env u).calls ∧
    DataProcessor.postRecords cfg env u p = [] ∧
    (DataProcessor.processUser cfg env u).recs =
      posts.flatMap (DataProcessor.postRecords cfg env u) ∧
    (DataProcessor.processUser cfg env u).recs.length ≤
      cfg.postsPerUser * cfg.commentsPerPost := by
  have hPU := DataProcessor.processUser_ok cfg env u posts hval hok
  have hcalls : (DataProcessor.processUser cfg env u).calls =
      (posts.filter DataValidator.validatePost).map Post.id := by
    rw [hPU]
    exact flatMap_stageCalls posts
  have hlen : posts.length ≤ cfg.postsPerUser := by
    obtain ⟨raw, -, hshape⟩ := getPostsByUserId_ok_shape cfg env u.id posts hok
    rw [hshape]
    exact List.length_take_le _ _
  refine ⟨hcalls, ?_, ?_, ?_, ?_⟩
  · rw [hcalls]
    intro hmem
    rw [List.mem_map] at hmem
    obtain ⟨q, hq, hqe⟩ := hmem
    rw [List.mem_filter] at hq
    exact hdist q hq.1 hq.2 hqe
  · rw [DataProcessor.postRecords_eq, if_neg (by simp [hinv])]
  · rw [hPU]
  · rw [hPU]
    calc (posts.flatMap (DataProcessor.postRecords cfg env u)).length
        ≤ posts.length * cfg.commentsPerPost :=
          flatMap_length_le posts _ cfg.commentsPerPost fun q hq =>
            postRecords_length_le cfg env u q
      _ ≤ cfg.postsPerUser * cfg.commentsPerPost :=
          Nat.mul_le_mul_right _ hlen

/-- Witness for C10: Ann has one invalid post (empty title) next to a
valid one; only the valid post gets a comment fetch. -/
theorem claim_C10_invalid_post_witness :
    (DataProcessor.processUser cfgStd envMain annUser).calls =
      ([badPost, post3].filter DataValidator.validatePost).map Post.id ∧
    badPost.id ∉ (DataProcessor.processUser cfgStd envMain annUser).calls ∧
    DataProcessor.postRecords cfgStd envMain annUser badPost = [] ∧
    (DataProcessor.processUser cfgStd envMain annUser).recs =
      [badPost, post3].flatMap (DataProcessor.postRecords cfgStd envMain annUser) ∧
    (DataProcessor.processUser cfgStd envMain annUser).recs.length ≤
      cfgStd.postsPerUser * cfgStd.commentsPerPost :=
  claim_C10_invalid_post cfgStd envMain annUser [badPost, post3] badPost
    rfl (by decide) (by decide) rfl (by decide)
